import Mathlib

/-!
Verification of the zotomatic PDF ingestion engine against its
natural-language specification.

The Python sources are shallowly embedded: strings stay strings, Python
dicts become association lists with insertion-order overwrite semantics,
unix timestamps become naturals, and fallible calls are passed in as
`Except` values or explicit failure points.  Components of the repository
whose module is absent from the snapshot (the pending-queue wrapper over
the state store, and the dropped-path bookkeeping of the pending queue
processor, which its caller `pipelines.py` reads) are modelled from the
specification; each such definition says so in its doc comment.
-/

namespace Zotomatic

/-! ## Python dict / string helpers -/

/-- Lookup in a Python-dict model (first binding of the key wins; `dictSet`
keeps at most one binding per key). -/
def dictLookup (m : List (String × String)) (k : String) : Option String :=
  (m.find? (fun kv => kv.1 == k)).map (fun kv => kv.2)

/-- `d[k] = v` on a Python dict: overwrite in place when the key exists,
append otherwise (insertion order preserved). -/
def dictSet (m : List (String × String)) (k v : String) : List (String × String) :=
  if m.any (fun kv => kv.1 == k) then
    m.map (fun kv => if kv.1 == k then (k, v) else kv)
  else
    m ++ [(k, v)]

/-- `d.get(k, default)`. -/
def dictGetD (m : List (String × String)) (k d : String) : String :=
  (dictLookup m k).getD d

/-- `str.strip()` on the common whitespace characters (structural, so
that concrete inputs evaluate inside the kernel). -/
def pyStrip (s : String) : String :=
  String.mk (((s.toList.dropWhile Char.isWhitespace).reverse.dropWhile
    Char.isWhitespace).reverse)

/-- `str.lower()` (character-wise). -/
def pyLower (s : String) : String :=
  String.mk (s.toList.map Char.toLower)

/-- `str.startswith(pre)`. -/
def pyStartsWith (s pre : String) : Bool :=
  List.isPrefixOf pre.toList s.toList

/-- `str.split(",")` worker. -/
def splitCommaAux : List Char → List Char → List (List Char)
  | [], acc => [acc]
  | c :: rest, acc =>
    if c = ',' then acc :: splitCommaAux rest []
    else splitCommaAux rest (acc ++ [c])

/-- `str.split(",")`. -/
def pySplitComma (s : String) : List String :=
  (splitCommaAux s.toList []).map String.mk

/-- The dict invariant: no key is bound twice. -/
def NodupKeys (m : List (String × String)) : Prop :=
  (m.map Prod.fst).Nodup

/-- `line.split(":", 1)` when `":" in line`: the text before the first
colon and the remainder after it; `none` when the line has no colon. -/
def splitFirstColonAux : List Char → List Char → Option (List Char × List Char)
  | [], _ => none
  | c :: rest, acc =>
    if c = ':' then some (acc, rest) else splitFirstColonAux rest (acc ++ [c])

/-- String-level wrapper for `splitFirstColonAux`. -/
def splitFirstColon (line : String) : Option (String × String) :=
  (splitFirstColonAux line.toList []).map
    (fun p => (String.mk p.1, String.mk p.2))

/-- `str.splitlines()` on the common line terminators: a new line starts
after a bare line feed, a carriage return, or the pair of the two; no
trailing empty line is produced for a terminated final line. -/
def splitLinesAux : List Char → List Char → List (List Char)
  | [], acc => if acc.isEmpty then [] else [acc]
  | '\r' :: '\n' :: rest, acc => acc :: splitLinesAux rest []
  | '\n' :: rest, acc => acc :: splitLinesAux rest []
  | '\r' :: rest, acc => acc :: splitLinesAux rest []
  | c :: rest, acc => splitLinesAux rest (acc ++ [c])

/-- String-level `splitlines`. -/
def splitlines (s : String) : List String :=
  (splitLinesAux s.toList []).map String.mk

/-! ## `utils/note.py` -/

/-- `list.index(d)` with the `ValueError` turned into `none`: the index
of the first occurrence of `d`. -/
def listIndexOf : List String → String → Option Nat
  | [], _ => none
  | x :: xs, d =>
    if x == d then some 0 else (listIndexOf xs d).map (fun n => n + 1)

/-- One iteration of the frontmatter loop: a line without a colon is
ignored, otherwise the stripped key is mapped to the stripped remainder. -/
def addMetaLine (meta : List (String × String)) (line : String) :
    List (String × String) :=
  match splitFirstColon line with
  | none => meta
  | some kv => dictSet meta (pyStrip kv.1) (pyStrip kv.2)

/-- `parse_frontmatter` from `utils/note.py`: empty map unless the text
starts with `---`; find the next `---` line among `lines[1:]` (empty map
when there is none, mirroring the caught `ValueError`); fold the lines
strictly between the delimiters through `addMetaLine`. -/
def parse_frontmatter (text : String) : List (String × String) :=
  if !(pyStartsWith text "---") then []
  else
    let lines := splitlines text
    match listIndexOf (lines.drop 1) "---" with
    | none => []
    | some i => ((lines.drop 1).take i).foldl addMetaLine []

/-- The specification's description of `parse_frontmatter`, for the
refinement proof: empty map when the text does not start with `---` or no
second `---` line exists; otherwise the map built from the lines between
the two delimiters. -/
def parseFrontmatterSpec (text : String) : List (String × String) :=
  if !(pyStartsWith text "---") then []
  else
    let body := (splitlines text).drop 1
    if body.any (fun l => l == "---") then
      (body.takeWhile (fun l => !(l == "---"))).foldl addMetaLine []
    else []

/-! ## `llm/types.py`: summary modes -/

/-- `LLMSummaryMode` enum. -/
inductive LLMSummaryMode where
  | quick
  | standard
  | deep
deriving DecidableEq, Repr

/-- The string value carried by each enum member. -/
def LLMSummaryMode.value : LLMSummaryMode → String
  | .quick => "quick"
  | .standard => "standard"
  | .deep => "deep"

/-- Enum members in declaration order, as iterated by `for item in cls`. -/
def LLMSummaryMode.members : List LLMSummaryMode :=
  [.quick, .standard, .deep]

/-- `LLMSummaryMode.from_value`: `None` maps to `QUICK`; otherwise the
input is stripped and lowercased and the first member with that value is
returned, `QUICK` when none matches. -/
def LLMSummaryMode.from_value (value : Option String) : LLMSummaryMode :=
  match value with
  | none => .quick
  | some v =>
    let normalized := pyLower (pyStrip v)
    (LLMSummaryMode.members.find? (fun item => item.value == normalized)).getD .quick

/-! ## `llm/client.py`: summary and tag generation -/

/-- `LLMSummaryResult`: mode plus (possibly empty) summary text. -/
structure LLMSummaryResult where
  mode : LLMSummaryMode
  summary : String := ""
deriving DecidableEq, Repr

/-- `LLMTagResult`: the deduplicated tag tuple. -/
structure LLMTagResult where
  tags : List String := []
deriving DecidableEq, Repr

/-- `BaseLLMClient.generate_summary`.  The mode handlers all reduce to
chat-completion calls against the provider; `handlerResult` is the
outcome of that provider interaction (`Except.error` models a raised
provider exception).  The source returns an empty result when the PDF
path is absent or missing on disk, and its `try` block catches every
exception from the handlers, returning `LLMSummaryResult(mode)`. -/
def generate_summary (mode : LLMSummaryMode) (pdfPath : Option String)
    (pdfExists : String → Bool) (handlerResult : Except String String) :
    LLMSummaryResult :=
  match pdfPath with
  | none => { mode := mode }
  | some p =>
    if !(pdfExists p) then { mode := mode }
    else
      match handlerResult with
      | .error _ => { mode := mode }
      | .ok summary => { mode := mode, summary := summary }

/-- The tag post-processing loop of `generate_tags`: split the completion
on commas, strip each item, drop empties, and deduplicate preserving
order. -/
def splitCommaDedup (result : String) : List String :=
  (pySplitComma result).foldl
    (fun tags item =>
      let tag := pyStrip item
      if tag = "" then tags
      else if tags.contains tag then tags
      else tags ++ [tag])
    []

/-- `BaseLLMClient.generate_tags`.  Empty result when the PDF path is
absent or missing on disk.  The chat-completion call is **not** wrapped in
a `try` block in the source, so a provider error propagates to the caller;
the embedding therefore returns `Except`. -/
def generate_tags (pdfPath : Option String) (pdfExists : String → Bool)
    (chatResult : Except String String) : Except String LLMTagResult :=
  match pdfPath with
  | none => .ok {}
  | some p =>
    if !(pdfExists p) then .ok {}
    else
      match chatResult with
      | .error e => .error e
      | .ok result => .ok { tags := splitCommaDedup result }

/-! ## `repositories.py`: note repository -/

/-- `NoteRepository.write` effect model.  The source calls
`Path.write_text`, which opens the target with mode `w` (truncating any
previous content) and then writes the encoded content in one `write`
call; an `OSError` is re-raised as `NoteRepositoryError`.  `failAt = some
n` models an `OSError` (for example disk full) raised after `n`
characters were written into the truncated file; `failAt = none` models a
completed write.  The pair holds the resulting file content and whether
`NoteRepositoryError` was raised. -/
def NoteRepository.write (oldContent : Option String) (content : String)
    (failAt : Option Nat) : Option String × Bool :=
  match failAt with
  | none => (some content, false)
  | some n => (some (String.mk (content.toList.take n)), true)

/-- `NoteRepository.find_by_citekey`: `None` when the in-memory index is
empty, otherwise a plain dict lookup. -/
def find_by_citekey (idx : List (String × String)) (citekey : String) :
    Option String :=
  if idx.isEmpty then none else dictLookup idx citekey

/-! ## `note/workflow.py`: update_pending_note -/

/-- `NoteWorkflow.update_pending_note` decision: parse the existing note
frontmatter, default both statuses to `"pending"` when absent, strip
them; regenerate the summary when summaries are enabled and the summary
status is pending, likewise for tags; return `False` (no rewrite) when
neither applies, otherwise rewrite through the note updater and return
`True`. -/
def update_pending_note (summaryEnabled tagEnabled : Bool) (text : String) :
    Bool :=
  let meta := parse_frontmatter text
  let summaryStatus := pyStrip (dictGetD meta "zotomatic_summary_status" "pending")
  let tagStatus := pyStrip (dictGetD meta "zotomatic_tag_status" "pending")
  let summaryShouldRegen := summaryEnabled && (summaryStatus == "pending")
  let tagShouldRegen := tagEnabled && (tagStatus == "pending")
  if !summaryShouldRegen && !tagShouldRegen then false else true

/-! ## `pipelines.py`: per-PDF processing outcome -/

/-- Outcome of `run_scan._process_pdf` for one PDF. -/
inductive ScanOutcome where
  | created
  | updated
  | skipped
deriving DecidableEq, Repr

/-- The branch structure of `run_scan._process_pdf`: with a non-empty
citekey and an existing note, try the pdf-path update, then the pending
update, else skip; otherwise create a new note. -/
def processPdfOutcome (citekey : String) (existing : Option String)
    (pathDriftUpdated : Bool) (pendingUpdated : Bool) : ScanOutcome :=
  if citekey != "" then
    match existing with
    | some _ =>
      if pathDriftUpdated then .updated
      else if pendingUpdated then .updated
      else .skipped
    | none => .created
  else .created

/-- Per-run environment for `_process_pdf`: the citekey the Zotero
context resolves for a PDF (empty when unresolved), the note path the
builder writes for it, and the two update outcomes for existing notes
(`update_pdf_path_if_changed` is absent from the snapshot and abstracted
as a boolean). -/
structure ScanEnv where
  citekeyOf : String → String
  notePathOf : String → String
  pathDrift : String → Bool
  pendingUpd : String → Bool

/-- Run state threaded between `_process_pdf` invocations: the shared
citekey index (`build_citekey_index` result, aliased by the repository
and updated in place after each create). -/
structure RunState where
  index : List (String × String)

/-- One `_process_pdf` invocation: look the citekey up in the index, pick
the outcome as in the source, and on a create with a non-empty citekey
record `citekey_index[citekey] = note.path`. -/
def processPdf (env : ScanEnv) (st : RunState) (pdf : String) :
    RunState × ScanOutcome :=
  let ck := env.citekeyOf pdf
  let existing := if ck != "" then find_by_citekey st.index ck else none
  let outcome := processPdfOutcome ck existing (env.pathDrift pdf) (env.pendingUpd pdf)
  if ck != "" && existing.isNone then
    ({ index := dictSet st.index ck (env.notePathOf pdf) }, outcome)
  else
    (st, outcome)

/-- The number of `created` outcomes for PDFs resolving to citekey `ck`
across a run processing the given PDFs in order. -/
def createdCount (env : ScanEnv) (ck : String) (st : RunState) :
    List String → Nat
  | [] => 0
  | pdf :: rest =>
    let step := processPdf env st pdf
    (if env.citekeyOf pdf = ck ∧ step.2 = ScanOutcome.created then 1 else 0)
      + createdCount env ck step.1 rest

/-! ## Pending queue and processor -/

/-- A row of the `pending` table. -/
structure PendingEntry where
  filePath : String
  attemptCount : Nat
  nextAttemptAt : Nat
  lastError : Option String := none
  enqueuedAt : Nat := 0
deriving DecidableEq, Repr

/-- `PendingQueueProcessorConfig` with the source defaults. -/
structure PendingQueueProcessorConfig where
  baseDelaySeconds : Nat := 5
  maxDelaySeconds : Nat := 60
  batchLimit : Nat := 50
  loopIntervalSeconds : Nat := 3
  maxAttempts : Nat := 10
deriving Repr

/-- Modelled from the spec: `resolve(path)` of the pending store (the
`pending_queue.py` wrapper is absent from the snapshot) deletes the row
for the path. -/
def pendingResolve (q : List PendingEntry) (p : String) : List PendingEntry :=
  q.filter (fun e => !(e.filePath == p))

/-- Modelled from the spec: `update_attempt(path, attempt_count,
next_attempt_at, last_error)` rewrites those columns of the row. -/
def pendingUpdateAttempt (q : List PendingEntry) (p : String)
    (attemptCount nextAttemptAt : Nat) (lastError : String) :
    List PendingEntry :=
  q.map (fun e =>
    if e.filePath == p then
      { e with attemptCount := attemptCount, nextAttemptAt := nextAttemptAt,
               lastError := some lastError }
    else e)

/-- The row stored for a path. -/
def lookupEntry (q : List PendingEntry) (p : String) : Option PendingEntry :=
  q.find? (fun e => e.filePath == p)

/-- Modelled from the spec: `count_all()` of the pending store. -/
def countAll (q : List PendingEntry) : Nat := q.length

/-- The ordering of `get_due`: `next_attempt_at` ascending, then
`enqueued_at` ascending. -/
def dueLe (a b : PendingEntry) : Bool :=
  a.nextAttemptAt < b.nextAttemptAt
    || (a.nextAttemptAt == b.nextAttemptAt && a.enqueuedAt ≤ b.enqueuedAt)

/-- Insertion step of the due-ordering sort. -/
def insertDue (e : PendingEntry) : List PendingEntry → List PendingEntry
  | [] => [e]
  | x :: xs => if dueLe e x then e :: x :: xs else x :: insertDue e xs

/-- Sort by the due ordering. -/
def sortDue : List PendingEntry → List PendingEntry
  | [] => []
  | x :: xs => insertDue x (sortDue xs)

/-- Modelled from the spec: `get_due(now, limit)` returns the entries
with `next_attempt_at ≤ now`, ordered by `next_attempt_at` then
`enqueued_at`, truncated to `limit`. -/
def getDue (q : List PendingEntry) (now limit : Nat) : List PendingEntry :=
  (sortDue (q.filter (fun e => e.nextAttemptAt ≤ now))).take limit

/-- Processor state: the pending table plus the in-memory dropped list.
The dropped list is modelled from the spec: the processor revision in the
snapshot lacks it, while its caller `pipelines.py` reads
`pending_processor.dropped_paths` and `dropped_count` for the final
summary. -/
structure ProcState where
  queue : List PendingEntry
  droppedPaths : List String := []
deriving DecidableEq, Repr

/-- `dropped_count`, modelled from the spec as the length of the dropped
list reported in the summary. -/
def droppedCount (st : ProcState) : Nat := st.droppedPaths.length

/-- `PendingQueueProcessor._backoff`: when the new attempt count would
exceed `max_attempts` the entry is resolved (deleted) and its path
retained in the dropped list (the retention is modelled from the spec,
see `ProcState`); otherwise the next delay is
`min(max_delay, base_delay * 2 ** max(attempt_count, 0))` and the row is
updated with the incremented attempt count, `next_attempt_at = now +
delay` and the error text. -/
def backoff (cfg : PendingQueueProcessorConfig) (now : Nat) (st : ProcState)
    (filePath : String) (attemptCount : Nat) (error : String)
    (nextAttempt : Nat) : ProcState :=
  if cfg.maxAttempts < nextAttempt then
    { queue := pendingResolve st.queue filePath,
      droppedPaths := st.droppedPaths ++ [filePath] }
  else
    let nextDelay :=
      min cfg.maxDelaySeconds (cfg.baseDelaySeconds * 2 ^ (max attemptCount 0))
    { st with
      queue := pendingUpdateAttempt st.queue filePath nextAttempt
        (now + nextDelay) error }

/-- One failed resolution attempt for the entry at `p`, as issued by
`run_once` on any failing branch: `_backoff(entry.file_path,
entry.attempt_count, error, entry.attempt_count + 1)`. -/
def failedAttempt (cfg : PendingQueueProcessorConfig) (now : Nat)
    (st : ProcState) (p : String) (error : String) : ProcState :=
  match lookupEntry st.queue p with
  | none => st
  | some e => backoff cfg now st p e.attemptCount error (e.attemptCount + 1)

/-- `n` consecutive failed resolution attempts for the entry at `p`. -/
def failNTimes (cfg : PendingQueueProcessorConfig) (now : Nat) (p : String)
    (error : String) : Nat → ProcState → ProcState
  | 0, st => st
  | n + 1, st => failNTimes cfg now p error n (failedAttempt cfg now st p error)

/-- Outcome of one due entry inside `run_once`: the file vanished, the
resolver raised, the resolver returned null, the success callback raised,
or everything succeeded. -/
inductive ResolveOutcome where
  | missing
  | resolverError (e : String)
  | unresolved
  | callbackError (e : String)
  | resolved
deriving DecidableEq, Repr

/-- The body of the `run_once` loop for one entry. -/
def runOnceStep (cfg : PendingQueueProcessorConfig)
    (outcome : String → ResolveOutcome) (now : Nat) (st : ProcState)
    (e : PendingEntry) : ProcState × Bool :=
  match outcome e.filePath with
  | .missing =>
    (backoff cfg now st e.filePath e.attemptCount "PDF not found"
      (e.attemptCount + 1), false)
  | .resolverError err =>
    (backoff cfg now st e.filePath e.attemptCount err (e.attemptCount + 1), false)
  | .unresolved =>
    (backoff cfg now st e.filePath e.attemptCount "Zotero unresolved"
      (e.attemptCount + 1), false)
  | .callbackError err =>
    (backoff cfg now st e.filePath e.attemptCount err (e.attemptCount + 1), false)
  | .resolved =>
    ({ st with queue := pendingResolve st.queue e.filePath }, true)

/-- `PendingQueueProcessor.run_once`: fetch the due batch, then walk it,
backing failures off and resolving successes; returns the new state and
the processed count. -/
def runOnce (cfg : PendingQueueProcessorConfig)
    (outcome : String → ResolveOutcome) (now : Nat) (st : ProcState) :
    ProcState × Nat :=
  let due := getDue st.queue now cfg.batchLimit
  due.foldl
    (fun acc e =>
      let step := runOnceStep cfg outcome now acc.1 e
      (step.1, acc.2 + (if step.2 then 1 else 0)))
    (st, 0)

/-- The `--once` main loop of `run_scan` after boot seeding is complete
(`pipelines.py`): each tick runs `run_once`, then exits when
`pending_queue.get_due(limit=1)` is empty, else sleeps
`loop_interval_seconds` and repeats.  `fuel` bounds the number of ticks;
`none` means the loop did not terminate within the fuel. -/
def scanOnceLoop (cfg : PendingQueueProcessorConfig)
    (outcome : String → ResolveOutcome) :
    Nat → Nat → ProcState → Option (ProcState × Nat)
  | 0, _, _ => none
  | fuel + 1, now, st =>
    if (getDue (runOnce cfg outcome now st).1.queue now 1).isEmpty then
      some ((runOnce cfg outcome now st).1, now)
    else
      scanOnceLoop cfg outcome fuel (now + cfg.loopIntervalSeconds)
        (runOnce cfg outcome now st).1

/-! ## `--path` mode and CLI exit code -/

/-- The `--path` branch of `run_scan`: expand the given paths, collect
those that are not existing regular files, and raise `ZotomaticCLIError`
before processing anything when any is invalid; otherwise process every
path in order.  The pair holds the command result (`Except.error` models
the raised error) and the list of paths actually handed to
`_process_pdf_safe` (each of which may write a note). -/
def runScanPathMode (isFile : String → Bool) (paths : List String) :
    Except String Unit × List String :=
  let invalid := paths.filter (fun p => !(isFile p))
  if invalid.isEmpty then (.ok (), paths)
  else (.error "Invalid PDF path(s)", [])

/-- `cli.main` maps a completed pipeline to exit code 0 and a raised
`ZotomaticError` to `sys.exit(1)`. -/
def scanExitCode (result : Except String Unit) : Nat :=
  match result with
  | .ok _ => 0
  | .error _ => 1

/-! ## Theorems -/

/-- C9: `LLMSummaryMode.from_value` is total — `None` yields `QUICK`, the
three mode names (stripped and lowercased) yield their mode, and every
other string yields `QUICK`. -/
theorem from_value_total_quick_default (v : String) :
    LLMSummaryMode.from_value none = LLMSummaryMode.quick ∧
    LLMSummaryMode.from_value (some v) =
      (if pyLower (pyStrip v) = "quick" then LLMSummaryMode.quick
       else if pyLower (pyStrip v) = "standard" then LLMSummaryMode.standard
       else if pyLower (pyStrip v) = "deep" then LLMSummaryMode.deep
       else LLMSummaryMode.quick) := by
  refine ⟨rfl, ?_⟩
  simp only [LLMSummaryMode.from_value, LLMSummaryMode.members]
  by_cases h1 : pyLower (pyStrip v) = "quick"
  · simp [List.find?, LLMSummaryMode.value, h1]
  · by_cases h2 : pyLower (pyStrip v) = "standard"
    · simp [List.find?, LLMSummaryMode.value, h1, h2]
    · by_cases h3 : pyLower (pyStrip v) = "deep"
      · simp [List.find?, LLMSummaryMode.value, h1, h2, h3]
      · have b1 : ("quick" == pyLower (pyStrip v)) = false :=
          beq_eq_false_iff_ne.mpr (Ne.symm h1)
        have b2 : ("standard" == pyLower (pyStrip v)) = false :=
          beq_eq_false_iff_ne.mpr (Ne.symm h2)
        have b3 : ("deep" == pyLower (pyStrip v)) = false :=
          beq_eq_false_iff_ne.mpr (Ne.symm h3)
        simp [List.find?, LLMSummaryMode.value, h1, h2, h3, b1, b2, b3]

/-- C7 counterexample: a write that fails after three characters leaves
the file holding a prefix of the new content — the operation raises
`NoteRepositoryError` but the previous content is destroyed, so a partial
state is observable. -/
theorem note_write_not_atomic :
    (NoteRepository.write (some "old") "new content" (some 3)).2 = true ∧
    (NoteRepository.write (some "old") "new content" (some 3)).1 = some "new" ∧
    (NoteRepository.write (some "old") "new content" (some 3)).1 ≠ some "new content" ∧
    (NoteRepository.write (some "old") "new content" (some 3)).1 ≠ some "old" := by
  refine ⟨rfl, rfl, ?_, ?_⟩ <;> decide

/-- C7 amended: `write` either completes leaving exactly the new content,
or raises `NoteRepositoryError`; in the failure case the file holds a
(possibly empty) prefix of the new content — the write is not atomic and
the previous content is not preserved. -/
theorem note_write_amended (old : Option String) (content : String)
    (failAt : Option Nat) :
    ((NoteRepository.write old content failAt).2 = false →
      (NoteRepository.write old content failAt).1 = some content) ∧
    ((NoteRepository.write old content failAt).2 = true →
      ∃ n, (NoteRepository.write old content failAt).1 =
        some (String.mk (content.toList.take n))) := by
  cases failAt with
  | none => exact ⟨fun _ => rfl, fun h => by simp [NoteRepository.write] at h⟩
  | some n => exact ⟨fun h => by simp [NoteRepository.write] at h, fun _ => ⟨n, rfl⟩⟩

/-- Witness for `note_write_amended` at a concrete successful write. -/
theorem note_write_amended_witness :
    (NoteRepository.write (some "old") "new content" none).1 = some "new content" :=
  (note_write_amended (some "old") "new content" none).1 rfl

/-- C8: when any `--path` argument is not an existing regular file, the
scan raises before processing anything — no path is handed to the
workflow (so no note is written) and the CLI exits with code 1. -/
theorem scan_path_invalid_fails_first (isFile : String → Bool)
    (paths : List String) (p : String) (hmem : p ∈ paths)
    (hbad : isFile p = false) :
    (runScanPathMode isFile paths).2 = [] ∧
    scanExitCode (runScanPathMode isFile paths).1 = 1 := by
  have hp : p ∈ paths.filter (fun q => !(isFile q)) :=
    List.mem_filter.mpr ⟨hmem, by simp [hbad]⟩
  have hne : ¬ (paths.filter (fun q => !(isFile q))).isEmpty := by
    cases hfl : paths.filter (fun q => !(isFile q)) with
    | nil => rw [hfl] at hp; cases hp
    | cons a l => simp [List.isEmpty]
  constructor <;> simp [runScanPathMode, scanExitCode, hne]

/-- Witness for `scan_path_invalid_fails_first` on a run mixing a valid
and a missing path. -/
theorem scan_path_invalid_witness :
    (runScanPathMode (fun q => q == "/tmp/c.pdf")
        ["/tmp/c.pdf", "/tmp/missing.pdf"]).2 = [] ∧
    scanExitCode (runScanPathMode (fun q => q == "/tmp/c.pdf")
        ["/tmp/c.pdf", "/tmp/missing.pdf"]).1 = 1 :=
  scan_path_invalid_fails_first (fun q => q == "/tmp/c.pdf")
    ["/tmp/c.pdf", "/tmp/missing.pdf"] "/tmp/missing.pdf"
    (by decide) (by decide)

/-- C3 counterexample: a provider error inside the chat-completion call
of `generate_tags` propagates to the caller instead of being caught and
turned into an empty tag tuple. -/
theorem generate_tags_propagates :
    generate_tags (some "/tmp/a.pdf") (fun _ => true)
        (Except.error "Gemini API error") = Except.error "Gemini API error" ∧
    generate_tags (some "/tmp/a.pdf") (fun _ => true)
        (Except.error "Gemini API error") ≠ Except.ok {} := by
  refine ⟨rfl, ?_⟩
  intro h
  exact Except.noConfusion h

/-- C3 amended: `generate_summary` catches every provider error and
returns the empty summary, but `generate_tags` does not wrap the
chat-completion call — a provider error escapes it to the caller (the
note workflow catches it there). -/
theorem llm_error_handling (mode : LLMSummaryMode) (pdfPath : Option String)
    (pdfExists : String → Bool) (e : String) (p : String)
    (hp : pdfExists p = true) :
    generate_summary mode pdfPath pdfExists (Except.error e) =
      { mode := mode, summary := "" } ∧
    generate_tags (some p) pdfExists (Except.error e) = Except.error e := by
  constructor
  · cases pdfPath with
    | none => rfl
    | some q =>
      by_cases hq : pdfExists q <;> simp [generate_summary, hq]
  · simp [generate_tags, hp]

/-- A missing delimiter means `listIndexOf` is `none` exactly when no
line equals the delimiter. -/
theorem listIndexOf_eq_none (l : List String) (d : String) :
    listIndexOf l d = none ↔ l.any (fun x => x == d) = false := by
  induction l with
  | nil => simp [listIndexOf]
  | cons x xs ih =>
    by_cases h : x == d
    · simp [listIndexOf, h]
    · simp only [listIndexOf, h, if_neg, Bool.false_eq_true, List.any_cons,
        Bool.or_eq_false_iff]
      cases hi : listIndexOf xs d with
      | none =>
        simp [hi] at ih
        simp [h]
        exact ih
      | some i =>
        simp [hi] at ih
        simp [h, ih]

/-- Taking up to the first occurrence of the delimiter is taking while
lines differ from it. -/
theorem take_listIndexOf (l : List String) (d : String) (i : Nat)
    (h : listIndexOf l d = some i) :
    l.take i = l.takeWhile (fun x => !(x == d)) := by
  induction l generalizing i with
  | nil => simp [listIndexOf] at h
  | cons x xs ih =>
    by_cases hx : x == d
    · simp [listIndexOf, hx] at h
      subst h
      simp [hx]
    · simp only [listIndexOf, hx, if_neg, Bool.false_eq_true] at h
      cases hi : listIndexOf xs d with
      | none => rw [hi] at h; simp at h
      | some j =>
        rw [hi] at h
        simp at h
        subst h
        simp [hx, List.take_succ_cons, List.takeWhile_cons, ih j hi]

/-- C10: `parse_frontmatter` is total and agrees with the description of
the specification — the empty map when the text does not start with
`---` or no closing `---` line exists, and otherwise the map folded from
the lines between the delimiters, keeping the stripped key/value of each
colon line with later duplicates overwriting earlier ones. -/
theorem parse_frontmatter_matches_spec (text : String) :
    parse_frontmatter text = parseFrontmatterSpec text := by
  unfold parse_frontmatter parseFrontmatterSpec
  by_cases hs : pyStartsWith text "---"
  · simp only [hs, Bool.not_true, Bool.false_eq_true, if_neg, if_false,
      Bool.not_eq_true]
    cases h : listIndexOf ((splitlines text).drop 1) "---" with
    | none =>
      have hany := (listIndexOf_eq_none _ _).mp h
      rw [hany]
      simp
    | some i =>
      have hany : ((splitlines text).drop 1).any (fun x => x == "---") = true := by
        cases ha : ((splitlines text).drop 1).any (fun x => x == "---") with
        | false => rw [(listIndexOf_eq_none _ _).mpr ha] at h; cases h
        | true => rfl
      rw [hany]
      simp only [List.drop_one] at h
      simp [take_listIndexOf _ _ _ h]
  · simp [hs]

/-- Witness for `llm_error_handling` at a concrete provider failure. -/
theorem llm_error_handling_witness :
    generate_summary LLMSummaryMode.quick (some "/tmp/a.pdf") (fun _ => true)
        (Except.error "boom") =
      { mode := LLMSummaryMode.quick, summary := "" } ∧
    generate_tags (some "/tmp/a.pdf") (fun _ => true) (Except.error "boom") =
      Except.error "boom" :=
  llm_error_handling LLMSummaryMode.quick (some "/tmp/a.pdf") (fun _ => true)
    "boom" "/tmp/a.pdf" rfl

/-- Dict lookup determines the defaulted get. -/
theorem dictGetD_of_lookup (m : List (String × String)) (k d s : String)
    (h : dictLookup m k = some s) : dictGetD m k d = s := by
  simp [dictGetD, h]

/-- C4: `update_pending_note` regenerates (and rewrites) exactly when an
enabled status is pending, and the run counts the note as updated when it
returns true and as skipped when it returns false (with no pdf-path
drift). -/
theorem update_pending_note_regen (se te : Bool) (text : String)
    (s t ck notePath : String) (hck : ck ≠ "")
    (hs : dictLookup (parse_frontmatter text) "zotomatic_summary_status" = some s)
    (ht : dictLookup (parse_frontmatter text) "zotomatic_tag_status" = some t) :
    (update_pending_note se te text = true ↔
      ((se = true ∧ pyStrip s = "pending") ∨ (te = true ∧ pyStrip t = "pending"))) ∧
    processPdfOutcome ck (some notePath) false (update_pending_note se te text) =
      (if update_pending_note se te text then ScanOutcome.updated
       else ScanOutcome.skipped) := by
  have e1 : dictGetD (parse_frontmatter text) "zotomatic_summary_status" "pending" = s :=
    dictGetD_of_lookup _ _ _ _ hs
  have e2 : dictGetD (parse_frontmatter text) "zotomatic_tag_status" "pending" = t :=
    dictGetD_of_lookup _ _ _ _ ht
  constructor
  · simp only [update_pending_note, e1, e2]
    cases se <;> cases te <;>
      by_cases hp : pyStrip s = "pending" <;>
        by_cases hq : pyStrip t = "pending" <;>
          simp [hp, hq]
  · have hne : (ck != "") = true := by simp [hck]
    cases hu : update_pending_note se te text <;>
      simp [processPdfOutcome, hne]

/-- Witness for `update_pending_note_regen`: a note with a pending
summary status and a done tag status is regenerated. -/
theorem update_pending_note_witness :
    update_pending_note true true
      "---\nzotomatic_summary_status: pending\nzotomatic_tag_status: done\n---\n" =
      true := by
  have h := update_pending_note_regen true true
      "---\nzotomatic_summary_status: pending\nzotomatic_tag_status: done\n---\n"
      "pending" "done" "smith2020" "notes/smith2020.md"
      (by decide) (by decide) (by decide)
  exact h.1.mpr (Or.inl ⟨rfl, by decide⟩)

/-- Updating the row for a path rewrites exactly the stored entry seen by
a lookup. -/
theorem lookupEntry_updateAttempt (q : List PendingEntry) (p : String)
    (n t : Nat) (err : String) :
    lookupEntry (pendingUpdateAttempt q p n t err) p =
      (lookupEntry q p).map (fun e =>
        { e with attemptCount := n, nextAttemptAt := t, lastError := some err }) := by
  induction q with
  | nil => rfl
  | cons a q ih =>
    by_cases h : a.filePath == p
    · have hp : a.filePath = p := by simpa using h
      simp [lookupEntry, pendingUpdateAttempt, List.find?, h, hp]
    · have h2 : (a.filePath == p) = false := by simpa using h
      have hmap : pendingUpdateAttempt (a :: q) p n t err =
          a :: pendingUpdateAttempt q p n t err := by
        simp [pendingUpdateAttempt, h2]
        intro hp
        exact absurd hp (by simpa using h)
      have hskip : ∀ l : List PendingEntry, lookupEntry (a :: l) p = lookupEntry l p := by
        intro l
        simp [lookupEntry, List.find?, h2]
      rw [hmap, hskip (pendingUpdateAttempt q p n t err), hskip q, ih]

/-- Resolving a path removes every row for it. -/
theorem lookupEntry_pendingResolve (q : List PendingEntry) (p : String) :
    lookupEntry (pendingResolve q p) p = none := by
  induction q with
  | nil => rfl
  | cons a q ih =>
    by_cases h : a.filePath == p
    · simpa [pendingResolve, h] using ih
    · simpa [pendingResolve, lookupEntry, List.find?, h] using ih

/-- A backoff that keeps the entry (new attempt count within the
ceiling): the row gets the incremented attempt count, the capped
exponential next-attempt time, and the error text; the dropped list is
untouched. -/
theorem backoff_surviving (cfg : PendingQueueProcessorConfig) (now : Nat)
    (st : ProcState) (p err : String) (e : PendingEntry)
    (he : lookupEntry st.queue p = some e)
    (hmax : e.attemptCount + 1 ≤ cfg.maxAttempts) :
    lookupEntry (backoff cfg now st p e.attemptCount err (e.attemptCount + 1)).queue p =
      some { e with attemptCount := e.attemptCount + 1,
                    nextAttemptAt := now + min cfg.maxDelaySeconds
                      (cfg.baseDelaySeconds * 2 ^ e.attemptCount),
                    lastError := some err } ∧
    (backoff cfg now st p e.attemptCount err (e.attemptCount + 1)).droppedPaths =
      st.droppedPaths := by
  have hlt : ¬ (cfg.maxAttempts < e.attemptCount + 1) := not_lt.mpr hmax
  constructor
  · simp [backoff, hlt, lookupEntry_updateAttempt, he, Nat.max_zero]
  · simp [backoff, hlt]

/-- A backoff whose new attempt count exceeds the ceiling drops the
entry: it is removed from the queue and its path appended to the dropped
list. -/
theorem backoff_drops (cfg : PendingQueueProcessorConfig) (now : Nat)
    (st : ProcState) (p err : String) (k n : Nat)
    (hgt : cfg.maxAttempts < n) :
    lookupEntry (backoff cfg now st p k err n).queue p = none ∧
    (backoff cfg now st p k err n).droppedPaths = st.droppedPaths ++ [p] := by
  constructor
  · simp [backoff, hgt, lookupEntry_pendingResolve]
  · simp [backoff, hgt]

/-- C6: an entry failing its attempt with `attempt_count = k` and
surviving (the incremented count stays within the ceiling) is
rescheduled with `attempt_count = k + 1`, `next_attempt_at = now +
min(max_delay, base_delay * 2 ^ k)` and the error recorded. -/
theorem backoff_delay_schedule (cfg : PendingQueueProcessorConfig)
    (now : Nat) (st : ProcState) (p err : String) (e : PendingEntry) (k : Nat)
    (he : lookupEntry st.queue p = some e) (hk : e.attemptCount = k)
    (hmax : k + 1 ≤ cfg.maxAttempts) :
    lookupEntry (backoff cfg now st p k err (k + 1)).queue p =
      some { e with attemptCount := k + 1,
                    nextAttemptAt := now + min cfg.maxDelaySeconds
                      (cfg.baseDelaySeconds * 2 ^ k),
                    lastError := some err } := by
  subst hk
  exact (backoff_surviving cfg now st p err e he hmax).1

/-- Witness for `backoff_delay_schedule`: with the default configuration
an entry on its third failure (attempt count 2) is rescheduled to
`now + min(60, 5 * 4) = now + 20` with attempt count 3. -/
theorem backoff_delay_schedule_witness :
    lookupEntry (backoff {} 100
        { queue := [{ filePath := "a.pdf", attemptCount := 2, nextAttemptAt := 90 }] }
        "a.pdf" 2 "Zotero unresolved" 3).queue "a.pdf" =
      some { filePath := "a.pdf", attemptCount := 3, nextAttemptAt := 120,
             lastError := some "Zotero unresolved" } := by
  have h := backoff_delay_schedule {} 100
      { queue := [{ filePath := "a.pdf", attemptCount := 2, nextAttemptAt := 90 }] }
      "a.pdf" "Zotero unresolved"
      { filePath := "a.pdf", attemptCount := 2, nextAttemptAt := 90 }
      2 (by decide) rfl (by decide)
  simpa using h

/-- Iterated failed attempts keep the tracked attempt count while the
ceiling is not exceeded, and never drop anything. -/
theorem failNTimes_progress (cfg : PendingQueueProcessorConfig) (now : Nat)
    (p err : String) :
    ∀ (n : Nat) (st : ProcState) (e : PendingEntry),
      lookupEntry st.queue p = some e →
      e.attemptCount + n ≤ cfg.maxAttempts →
      (∃ e2, lookupEntry (failNTimes cfg now p err n st).queue p = some e2 ∧
        e2.attemptCount = e.attemptCount + n) ∧
      (failNTimes cfg now p err n st).droppedPaths = st.droppedPaths := by
  intro n
  induction n with
  | zero =>
    intro st e he _
    exact ⟨⟨e, he, rfl⟩, rfl⟩
  | succ n ih =>
    intro st e he hle
    have hmax : e.attemptCount + 1 ≤ cfg.maxAttempts := by omega
    have hstep := backoff_surviving cfg now st p err e he hmax
    have hfa : failedAttempt cfg now st p err =
        backoff cfg now st p e.attemptCount err (e.attemptCount + 1) := by
      simp [failedAttempt, he]
    have hrec := ih (failedAttempt cfg now st p err)
      { e with attemptCount := e.attemptCount + 1,
               nextAttemptAt := now + min cfg.maxDelaySeconds
                 (cfg.baseDelaySeconds * 2 ^ e.attemptCount),
               lastError := some err }
      (by rw [hfa]; exact hstep.1) (by simp; omega)
    refine ⟨?_, ?_⟩
    · obtain ⟨e2, h2, hc⟩ := hrec.1
      exact ⟨e2, by simpa [failNTimes] using h2, by simp at hc; omega⟩
    · calc (failNTimes cfg now p err (n + 1) st).droppedPaths
          = (failNTimes cfg now p err n (failedAttempt cfg now st p err)).droppedPaths := rfl
      _ = (failedAttempt cfg now st p err).droppedPaths := hrec.2
      _ = st.droppedPaths := by rw [hfa]; exact hstep.2

/-- Peeling the last of `n + 1` failed attempts. -/
theorem failNTimes_succ_back (cfg : PendingQueueProcessorConfig) (now : Nat)
    (p err : String) :
    ∀ (n : Nat) (st : ProcState),
      failNTimes cfg now p err (n + 1) st =
        failedAttempt cfg now (failNTimes cfg now p err n st) p err := by
  intro n
  induction n with
  | zero => intro st; rfl
  | succ n ih =>
    intro st
    calc failNTimes cfg now p err (n + 2) st
        = failNTimes cfg now p err (n + 1) (failedAttempt cfg now st p err) := rfl
      _ = failedAttempt cfg now
            (failNTimes cfg now p err n (failedAttempt cfg now st p err)) p err :=
          ih (failedAttempt cfg now st p err)
      _ = failedAttempt cfg now (failNTimes cfg now p err (n + 1) st) p err := rfl

/-- C1: a fresh pending entry that fails `max_attempts + 1` consecutive
resolution attempts is removed from the queue by the backoff and its path
is retained in the in-memory dropped list, with `dropped_count` the
length of that list. -/
theorem pending_dropped_after_max_attempts (cfg : PendingQueueProcessorConfig)
    (now : Nat) (q : List PendingEntry) (d : List String) (p err : String)
    (e : PendingEntry) (he : lookupEntry q p = some e)
    (h0 : e.attemptCount = 0) :
    lookupEntry (failNTimes cfg now p err (cfg.maxAttempts + 1)
      { queue := q, droppedPaths := d }).queue p = none ∧
    p ∈ (failNTimes cfg now p err (cfg.maxAttempts + 1)
      { queue := q, droppedPaths := d }).droppedPaths ∧
    droppedCount (failNTimes cfg now p err (cfg.maxAttempts + 1)
        { queue := q, droppedPaths := d }) =
      (failNTimes cfg now p err (cfg.maxAttempts + 1)
        { queue := q, droppedPaths := d }).droppedPaths.length := by
  have hprog := failNTimes_progress cfg now p err cfg.maxAttempts
    { queue := q, droppedPaths := d } e he (by omega)
  obtain ⟨⟨e2, h2, hc⟩, hd⟩ := hprog
  have hc2 : e2.attemptCount = cfg.maxAttempts := by omega
  rw [failNTimes_succ_back]
  have hfa : failedAttempt cfg now
      (failNTimes cfg now p err cfg.maxAttempts
        { queue := q, droppedPaths := d }) p err =
      backoff cfg now
        (failNTimes cfg now p err cfg.maxAttempts
          { queue := q, droppedPaths := d }) p e2.attemptCount err
        (e2.attemptCount + 1) := by
    simp [failedAttempt, h2]
  have hdrop := backoff_drops cfg now
    (failNTimes cfg now p err cfg.maxAttempts { queue := q, droppedPaths := d })
    p err e2.attemptCount (e2.attemptCount + 1) (by omega)
  refine ⟨?_, ?_, rfl⟩
  · rw [hfa]; exact hdrop.1
  · rw [hfa, hdrop.2]; simp

/-- Witness for `pending_dropped_after_max_attempts`: with the default
ceiling of 10, eleven consecutive failures drop the entry for `b.pdf`. -/
theorem pending_dropped_witness :
    lookupEntry (failNTimes {} 0 "b.pdf" "Zotero unresolved" 11
      { queue := [{ filePath := "b.pdf", attemptCount := 0, nextAttemptAt := 0 }],
        droppedPaths := [] }).queue "b.pdf" = none ∧
    "b.pdf" ∈ (failNTimes {} 0 "b.pdf" "Zotero unresolved" 11
      { queue := [{ filePath := "b.pdf", attemptCount := 0, nextAttemptAt := 0 }],
        droppedPaths := [] }).droppedPaths := by
  have h := pending_dropped_after_max_attempts {} 0
      [{ filePath := "b.pdf", attemptCount := 0, nextAttemptAt := 0 }] []
      "b.pdf" "Zotero unresolved"
      { filePath := "b.pdf", attemptCount := 0, nextAttemptAt := 0 }
      (by decide) rfl
  exact ⟨h.1, h.2.1⟩

/-- C2 counterexample: in `--once` mode a single pending entry whose
resolution fails is backed off to a future `next_attempt_at`; the loop
then sees no *due* entry and exits normally with the entry still in the
pending table, so the final summary reports `pending = 1`, not 0. -/
theorem scan_once_exits_with_pending :
    (scanOnceLoop {} (fun _ => ResolveOutcome.unresolved) 2 0
        { queue := [{ filePath := "b.pdf", attemptCount := 0, nextAttemptAt := 0 }],
          droppedPaths := [] }).map (fun r => countAll r.1.queue) = some 1 := by
  decide

/-- C2 amended: whenever the `--once` loop (run after boot seeding
completes) terminates normally, no pending entry is *due* at the final
tick; entries backed off to a future `next_attempt_at` may remain in the
pending table and are reported under `pending` in the final summary. -/
theorem scan_once_no_due_at_exit (cfg : PendingQueueProcessorConfig)
    (outcome : String → ResolveOutcome) :
    ∀ (fuel now : Nat) (st stF : ProcState) (tF : Nat),
      scanOnceLoop cfg outcome fuel now st = some (stF, tF) →
      getDue stF.queue tF 1 = [] := by
  intro fuel
  induction fuel with
  | zero =>
    intro now st stF tF h
    simp [scanOnceLoop] at h
  | succ n ih =>
    intro now st stF tF h
    by_cases hd : (getDue (runOnce cfg outcome now st).1.queue now 1).isEmpty
    · rw [scanOnceLoop, if_pos hd] at h
      obtain ⟨h1, h2⟩ := Prod.mk.injEq .. ▸ Option.some.injEq .. ▸ h
      subst h1
      subst h2
      exact List.isEmpty_iff.mp hd
    · rw [scanOnceLoop, if_neg hd] at h
      exact ih (now + cfg.loopIntervalSeconds) (runOnce cfg outcome now st).1 stF tF h

/-- Witness for `scan_once_no_due_at_exit`: a run that drains its single
entry terminates with nothing due. -/
theorem scan_once_no_due_witness :
    getDue ((⟨[], []⟩ : ProcState)).queue 0 1 = [] :=
  scan_once_no_due_at_exit {} (fun _ => ResolveOutcome.resolved) 1 0
    { queue := [{ filePath := "a.pdf", attemptCount := 0, nextAttemptAt := 0 }],
      droppedPaths := [] }
    ⟨[], []⟩ 0 (by decide)

/-- Overwriting an existing key leaves its lookup at the new value. -/
theorem find_replace_self (k v : String) :
    ∀ m : List (String × String),
      m.any (fun kv => kv.1 == k) = true →
      dictLookup (m.map (fun kv => if kv.1 == k then (k, v) else kv)) k =
        some v := by
  intro m
  induction m with
  | nil => intro h; cases h
  | cons a m ih =>
    intro h
    by_cases ha : (a.1 == k) = true
    · simp [dictLookup, List.find?, ha]
    · have ha2 : (a.1 == k) = false := by simpa using ha
      have h3 : m.any (fun kv => kv.1 == k) = true := by simpa [ha2] using h
      simpa [dictLookup, List.find?, ha2] using ih h3

/-- Appending a fresh key makes its lookup the appended value. -/
theorem find_append_self (k v : String) :
    ∀ m : List (String × String),
      m.any (fun kv => kv.1 == k) = false →
      dictLookup (m ++ [(k, v)]) k = some v := by
  intro m
  induction m with
  | nil => intro _; simp [dictLookup, List.find?]
  | cons a m ih =>
    intro h
    have ha2 : (a.1 == k) = false := by
      cases hx : (a.1 == k) with
      | false => rfl
      | true => simp [List.any_cons, hx] at h
    have h3 : m.any (fun kv => kv.1 == k) = false := by simpa [ha2] using h
    simpa [dictLookup, List.find?, ha2] using ih h3

/-- `dictSet` fixes the lookup of the written key. -/
theorem dictLookup_dictSet_self (m : List (String × String)) (k v : String) :
    dictLookup (dictSet m k v) k = some v := by
  unfold dictSet
  by_cases h : m.any (fun kv => kv.1 == k)
  · rw [if_pos h]
    exact find_replace_self k v m h
  · rw [if_neg h]
    exact find_append_self k v m (Bool.eq_false_iff.mpr h)

/-- Overwriting one key does not move the lookup of another. -/
theorem find_replace_ne (k2 v k : String) (hne : k2 ≠ k) :
    ∀ m : List (String × String),
      dictLookup (m.map (fun kv => if kv.1 == k2 then (k2, v) else kv)) k =
        dictLookup m k := by
  intro m
  induction m with
  | nil => rfl
  | cons a m ih =>
    by_cases ha : (a.1 == k2) = true
    · have haeq : a.1 = k2 := by simpa using ha
      have hak : (a.1 == k) = false := by
        simp [haeq]
        exact hne
      have hk2k : (k2 == k) = false := by
        simp
        exact hne
      simpa [dictLookup, List.find?, ha, hak, hk2k] using ih
    · have ha2 : (a.1 == k2) = false := by simpa using ha
      cases hak : (a.1 == k) with
      | true => simp [dictLookup, List.find?, ha2, hak]
      | false => simpa [dictLookup, List.find?, ha2, hak] using ih

/-- Appending a different key does not move the lookup of another. -/
theorem find_append_ne (k2 v k : String) (hne : k2 ≠ k) :
    ∀ m : List (String × String),
      dictLookup (m ++ [(k2, v)]) k = dictLookup m k := by
  intro m
  induction m with
  | nil =>
    have hk2k : (k2 == k) = false := by
      simp
      exact hne
    simp [dictLookup, List.find?, hk2k]
  | cons a m ih =>
    cases hak : (a.1 == k) with
    | true => simp [dictLookup, List.find?, hak]
    | false => simpa [dictLookup, List.find?, hak] using ih

/-- `dictSet` of one key preserves the lookup value of any other key. -/
theorem dictLookup_dictSet_ne (m : List (String × String)) (k2 v k : String)
    (hne : k2 ≠ k) : dictLookup (dictSet m k2 v) k = dictLookup m k := by
  unfold dictSet
  by_cases h : m.any (fun kv => kv.1 == k2)
  · rw [if_pos h]
    exact find_replace_ne k2 v k hne m
  · rw [if_neg h]
    exact find_append_ne k2 v k hne m

/-- A key present before a `dictSet` is present afterwards. -/
theorem dictLookup_dictSet_pres (m : List (String × String)) (k2 v k : String)
    (h : dictLookup m k ≠ none) : dictLookup (dictSet m k2 v) k ≠ none := by
  by_cases hk : k2 = k
  · subst hk
    rw [dictLookup_dictSet_self]
    exact Option.some_ne_none v
  · rw [dictLookup_dictSet_ne m k2 v k hk]
    exact h

/-- The citekey index lookup is the dict lookup. -/
theorem find_by_citekey_eq_dictLookup (idx : List (String × String))
    (ck : String) : find_by_citekey idx ck = dictLookup idx ck := by
  cases idx with
  | nil => rfl
  | cons a l => rfl

/-- Under the dict invariant the entries stored for a key are exactly the
at-most-one value the lookup returns. -/
theorem filter_nodup_find (m : List (String × String)) (k : String)
    (h : NodupKeys m) :
    (m.filter (fun kv => kv.1 == k)).map Prod.snd = (dictLookup m k).toList := by
  induction m with
  | nil => rfl
  | cons a m ih =>
    have hparts := List.nodup_cons.mp h
    have hnotin : a.1 ∉ m.map Prod.fst := hparts.1
    have h2 : NodupKeys m := hparts.2
    by_cases ha : (a.1 == k) = true
    · have haeq : a.1 = k := by simpa using ha
      have hrest : m.filter (fun kv => kv.1 == k) = [] := by
        rw [List.filter_eq_nil]
        intro kv hkv hcontra
        have : kv.1 = k := by simpa using hcontra
        exact hnotin (haeq ▸ this ▸ List.mem_map_of_mem Prod.fst hkv)
      simp [dictLookup, List.find?, ha, hrest, List.filter_cons]
    · have ha2 : (a.1 == k) = false := by simpa using ha
      simpa [dictLookup, List.find?, ha2, List.filter_cons] using ih h2

/-- A `_process_pdf` invocation whose citekey is already indexed leaves
the run state unchanged and never creates. -/
theorem processPdf_found (env : ScanEnv) (st : RunState) (pdf : String)
    {w : String} (hne : env.citekeyOf pdf ≠ "")
    (hfind : find_by_citekey st.index (env.citekeyOf pdf) = some w) :
    processPdf env st pdf =
      (st, if env.pathDrift pdf then ScanOutcome.updated
           else if env.pendingUpd pdf then ScanOutcome.updated
           else ScanOutcome.skipped) := by
  have hb : (env.citekeyOf pdf != "") = true := by simp [hne]
  simp [processPdf, hb, hfind, processPdfOutcome]

/-- A `_process_pdf` invocation with an unindexed non-empty citekey
creates the note and records the citekey in the index. -/
theorem processPdf_new (env : ScanEnv) (st : RunState) (pdf : String)
    (hne : env.citekeyOf pdf ≠ "")
    (hfind : find_by_citekey st.index (env.citekeyOf pdf) = none) :
    processPdf env st pdf =
      ({ index := dictSet st.index (env.citekeyOf pdf) (env.notePathOf pdf) },
       ScanOutcome.created) := by
  have hb : (env.citekeyOf pdf != "") = true := by simp [hne]
  simp [processPdf, hb, hfind, processPdfOutcome]

/-- A `_process_pdf` invocation with an empty citekey creates without
touching the index. -/
theorem processPdf_nock (env : ScanEnv) (st : RunState) (pdf : String)
    (h : env.citekeyOf pdf = "") :
    processPdf env st pdf = (st, ScanOutcome.created) := by
  simp [processPdf, h, processPdfOutcome]

/-- Once a citekey is indexed the run never creates for it again, and a
run creates for a citekey at most once. -/
theorem createdCount_bound (env : ScanEnv) (ck : String) (hck : ck ≠ "") :
    ∀ (pdfs : List String) (st : RunState),
      (dictLookup st.index ck ≠ none → createdCount env ck st pdfs = 0) ∧
      createdCount env ck st pdfs ≤ 1 := by
  intro pdfs
  induction pdfs with
  | nil =>
    intro st
    exact ⟨fun _ => rfl, by simp [createdCount]⟩
  | cons pdf rest ih =>
    intro st
    by_cases hc : env.citekeyOf pdf = ck
    · cases hl : dictLookup st.index ck with
      | some w =>
        have hfind : find_by_citekey st.index (env.citekeyOf pdf) = some w := by
          rw [find_by_citekey_eq_dictLookup, hc, hl]
        have hstep := processPdf_found env st pdf (by rw [hc]; exact hck) hfind
        have hnotc : (processPdf env st pdf).2 ≠ ScanOutcome.created := by
          rw [hstep]
          by_cases hpd : env.pathDrift pdf <;> by_cases hpu : env.pendingUpd pdf <;>
            simp [hpd, hpu]
        have hz : (if env.citekeyOf pdf = ck ∧
            (processPdf env st pdf).2 = ScanOutcome.created then 1 else 0) = 0 := by
          simp [hnotc]
        have hrest := ih (processPdf env st pdf).1
        have hlook : dictLookup (processPdf env st pdf).1.index ck ≠ none := by
          rw [hstep]
          simp [hl]
        constructor
        · intro _
          simp only [createdCount, hz, Nat.zero_add]
          exact hrest.1 hlook
        · simp only [createdCount, hz, Nat.zero_add]
          rw [hrest.1 hlook]
          exact Nat.zero_le 1
      | none =>
        have hfind : find_by_citekey st.index (env.citekeyOf pdf) = none := by
          rw [find_by_citekey_eq_dictLookup, hc, hl]
        have hstep := processPdf_new env st pdf (by rw [hc]; exact hck) hfind
        have hrest := ih (processPdf env st pdf).1
        have hlook : dictLookup (processPdf env st pdf).1.index ck ≠ none := by
          rw [hstep]
          show dictLookup (dictSet st.index (env.citekeyOf pdf)
            (env.notePathOf pdf)) ck ≠ none
          rw [hc, dictLookup_dictSet_self]
          exact Option.some_ne_none _
        have hone : (if env.citekeyOf pdf = ck ∧
            (processPdf env st pdf).2 = ScanOutcome.created then 1 else 0) = 1 := by
          rw [hstep]
          simp [hc]
        constructor
        · intro habs
          exact absurd habs (by simp [hl])
        · simp only [createdCount, hone]
          rw [hrest.1 hlook]
    · have hz : (if env.citekeyOf pdf = ck ∧
          (processPdf env st pdf).2 = ScanOutcome.created then 1 else 0) = 0 := by
        simp [hc]
      have hpres : dictLookup st.index ck ≠ none →
          dictLookup (processPdf env st pdf).1.index ck ≠ none := by
        intro hl
        by_cases he : env.citekeyOf pdf = ""
        · rw [processPdf_nock env st pdf he]
          exact hl
        · cases hfind : find_by_citekey st.index (env.citekeyOf pdf) with
          | some w =>
            rw [processPdf_found env st pdf he hfind]
            exact hl
          | none =>
            rw [processPdf_new env st pdf he hfind]
            exact dictLookup_dictSet_pres st.index (env.citekeyOf pdf)
              (env.notePathOf pdf) ck hl
      have hrest := ih (processPdf env st pdf).1
      constructor
      · intro hl
        simp only [createdCount, hz, Nat.zero_add]
        exact hrest.1 (hpres hl)
      · simp only [createdCount, hz, Nat.zero_add]
        exact hrest.2

/-- C5: under the dict invariant `find_by_citekey` returns the unique
stored path of a citekey (at most one), and a run creates a note for any
given non-empty citekey at most once — once created (or pre-indexed),
later PDFs resolving to the same citekey are updated or skipped. -/
theorem citekey_unique_single_create (idx : List (String × String))
    (ck : String) (env : ScanEnv) (st : RunState) (pdfs : List String)
    (hnd : NodupKeys idx) (hck : ck ≠ "") :
    ((idx.filter (fun kv => kv.1 == ck)).map Prod.snd =
      (find_by_citekey idx ck).toList) ∧
    createdCount env ck st pdfs ≤ 1 := by
  constructor
  · rw [find_by_citekey_eq_dictLookup]
    exact filter_nodup_find idx ck hnd
  · exact (createdCount_bound env ck hck pdfs st).2

/-- Witness for `citekey_unique_single_create`: two PDFs resolving to the
same citekey in one run. -/
theorem citekey_unique_witness :
    (([("smith2020", "notes/smith2020.md")].filter
        (fun kv => kv.1 == "smith2020")).map Prod.snd =
      (find_by_citekey [("smith2020", "notes/smith2020.md")] "smith2020").toList) ∧
    createdCount
      { citekeyOf := fun _ => "smith2020", notePathOf := fun p => p,
        pathDrift := fun _ => false, pendingUpd := fun _ => false }
      "smith2020" { index := [] } ["a.pdf", "b.pdf"] ≤ 1 :=
  citekey_unique_single_create [("smith2020", "notes/smith2020.md")] "smith2020"
    { citekeyOf := fun _ => "smith2020", notePathOf := fun p => p,
      pathDrift := fun _ => false, pendingUpd := fun _ => false }
    { index := [] } ["a.pdf", "b.pdf"] (by unfold NodupKeys; decide) (by decide)

end Zotomatic
